import Mathlib

/-!
Verification of the pyPoker table engine and hand evaluator.

Shallow embedding of the sources under `src/poker/`:
* `Card.py`   — suits, faces with numeric rank 2..14;
* `PokerHand.py` — the 5-card evaluator `_evaluate_score`, `best`;
* `Deck.py`   — `draw` / `sample`;
* `Action.py`, `Player.py`, `TableState.py`, `Table.py` — the table state machine.

Python `Money` is a plain `int` (module `poker.Money` is an alias), modelled
as `Int`.  Mutation of `self.state` is modelled by explicit state passing.
-/

namespace Poker

/-- Card suits (`Card.Suit` in Card.py): club, spade, heart, diamond. -/
inductive Suit
  | c | s | h | d
  deriving DecidableEq, Fintype

/-- Card faces (`Card.Face` in Card.py). -/
inductive Face
  | TWO | THREE | FOUR | FIVE | SIX | SEVEN | EIGHT | NINE | TEN
  | JACK | QUEEN | KING | ACE
  deriving DecidableEq, Fintype

/-- Numeric face rank (the `value` of the Python `Face` enum), 2..14. -/
def Face.value : Face → Nat
  | .TWO => 2
  | .THREE => 3
  | .FOUR => 4
  | .FIVE => 5
  | .SIX => 6
  | .SEVEN => 7
  | .EIGHT => 8
  | .NINE => 9
  | .TEN => 10
  | .JACK => 11
  | .QUEEN => 12
  | .KING => 13
  | .ACE => 14

/-- A playing card (dataclass `Card` in Card.py). -/
structure Card where
  suit : Suit
  face : Face
  deriving DecidableEq

/-- Hand tiers (`PokerHand.Tier` in PokerHand.py). -/
inductive Tier
  | HIGH_CARD | ONE_PAIR | TWO_PAIR | THREE_OF_A_KIND | STRAIGHT
  | FLUSH | FULL_HOUSE | FOUR_OF_A_KIND | STRAIGHT_FLUSH | ROYAL_FLUSH
  deriving DecidableEq

/-- The numeric value of a tier (the Python enum values 0..9). -/
def Tier.value : Tier → Nat
  | .HIGH_CARD => 0
  | .ONE_PAIR => 1
  | .TWO_PAIR => 2
  | .THREE_OF_A_KIND => 3
  | .STRAIGHT => 4
  | .FLUSH => 5
  | .FULL_HOUSE => 6
  | .FOUR_OF_A_KIND => 7
  | .STRAIGHT_FLUSH => 8
  | .ROYAL_FLUSH => 9

/-- Descending sort of naturals, as Python `sort(reverse=True)` (a stable
sort; `insertionSort` is stable as well). -/
def sortDesc (l : List Nat) : List Nat := l.insertionSort (· ≥ ·)

/-- Ascending sort of naturals, as Python `sorted`. -/
def sortAsc (l : List Nat) : List Nat := l.insertionSort (· ≤ ·)

/-- `sorted(Counter(faces).items(), key=lambda x: (-x[1], -x[0]))`:
(face, multiplicity) pairs ordered by count descending then face descending. -/
def faceCountsOf (faces : List Nat) : List (Nat × Nat) :=
  (faces.dedup.map fun f => (f, faces.count f)).insertionSort
    (fun a b => b.2 < a.2 ∨ (a.2 = b.2 ∧ b.1 ≤ a.1))

/-- Python `max` over a (non-empty) list of naturals. -/
def listMax (l : List Nat) : Nat := l.foldr max 0

/-- `faces`: the card face values sorted descending
(`cards.sort(key=lambda x: x.face.value, reverse=True)`). -/
def facesOf (cardsIn : List Card) : List Nat :=
  sortDesc (cardsIn.map fun c => c.face.value)

/-- `unique_faces = sorted(set(faces), reverse=True)`. -/
def uniqueFacesOf (cardsIn : List Card) : List Nat := sortDesc (facesOf cardsIn).dedup

/-- `is_flush`: `len(set(suits)) == 1`. -/
def flushOf (cardsIn : List Card) : Bool :=
  ((cardsIn.map fun c => c.suit).dedup.length) == 1

/-- `is_straight`: five distinct faces that are the wheel or span exactly 4. -/
def straightOf (cardsIn : List Card) : Bool :=
  let sorted_faces : List Nat := sortAsc (facesOf cardsIn).dedup
  if sorted_faces.length != 5 then false
  else if sorted_faces == [2, 3, 4, 5, 14] then true
  else ((sorted_faces.getD 4 0 : Int) - (sorted_faces.getD 0 0 : Int)) == 4

/-- `set(faces) == {14, 2, 3, 4, 5}`, rendered as equality of the ascending
deduplicated face list with `[2, 3, 4, 5, 14]`. -/
def isWheelOf (cardsIn : List Card) : Bool :=
  sortAsc (facesOf cardsIn).dedup == [2, 3, 4, 5, 14]

/-- `face_counts[i]`, via `getD` (the source indexes only under guards that
make the index valid). -/
def faceCountAt (cardsIn : List Card) (i : Nat) : Nat × Nat :=
  (faceCountsOf (facesOf cardsIn)).getD i (0, 0)

/-- `high_card` of the straight branches: 5 for the wheel, else
`max(unique_faces)`. -/
def straightHigh (cardsIn : List Card) : Nat :=
  if isWheelOf cardsIn then 5 else listMax (uniqueFacesOf cardsIn)

/-- The descending kickers of the three-of-a-kind / one-pair branches:
`sorted([f for f in faces if f != exclude], reverse=True)`. -/
def kickersOf (cardsIn : List Card) (exclude : Nat) : List Nat :=
  sortDesc ((facesOf cardsIn).filter fun f => f != exclude)

/-- The single two-pair kicker:
`[f for f in faces if f != high_pair and f != low_pair][0]`. -/
def twoPairKicker (cardsIn : List Card) (hp lp : Nat) : Nat :=
  ((facesOf cardsIn).filter fun f => f != hp && f != lp).getD 0 0

/-- Port of `PokerHand._evaluate_score` (PokerHand.py lines 66-190).  The
Python local variables (`faces`, `face_counts`, `quad`, `trips`, ...) appear
here as the named component functions above, applied at their use sites. -/
def evaluate_score (cardsIn : List Card) : Tier × Nat :=
  if flushOf cardsIn && (facesOf cardsIn == [14, 13, 12, 11, 10]) then
    (Tier.ROYAL_FLUSH, Tier.ROYAL_FLUSH.value * 1000000)
  else if flushOf cardsIn && straightOf cardsIn then
    (Tier.STRAIGHT_FLUSH, Tier.STRAIGHT_FLUSH.value * 1000000 + straightHigh cardsIn)
  else if (faceCountAt cardsIn 0).2 == 4 then
    (Tier.FOUR_OF_A_KIND, Tier.FOUR_OF_A_KIND.value * 1000000
      + (faceCountAt cardsIn 0).1 * 100 + (faceCountAt cardsIn 1).1)
  else if (faceCountAt cardsIn 0).2 == 3 && (faceCountAt cardsIn 1).2 == 2 then
    (Tier.FULL_HOUSE, Tier.FULL_HOUSE.value * 1000000
      + (faceCountAt cardsIn 0).1 * 100 + (faceCountAt cardsIn 1).1)
  else if flushOf cardsIn then
    (Tier.FLUSH, Tier.FLUSH.value * 1000000 + listMax (facesOf cardsIn))
  else if straightOf cardsIn then
    (Tier.STRAIGHT, Tier.STRAIGHT.value * 1000000 + straightHigh cardsIn)
  else if (faceCountAt cardsIn 0).2 == 3 then
    (Tier.THREE_OF_A_KIND, Tier.THREE_OF_A_KIND.value * 1000000
      + (faceCountAt cardsIn 0).1 * 10000
      + (kickersOf cardsIn (faceCountAt cardsIn 0).1).getD 0 0 * 1000
      + (kickersOf cardsIn (faceCountAt cardsIn 0).1).getD 1 0 * 100)
  else if (faceCountAt cardsIn 0).2 == 2 && (faceCountAt cardsIn 1).2 == 2 then
    (Tier.TWO_PAIR, Tier.TWO_PAIR.value * 1000000
      + max (faceCountAt cardsIn 0).1 (faceCountAt cardsIn 1).1 * 10000
      + min (faceCountAt cardsIn 0).1 (faceCountAt cardsIn 1).1 * 100
      + twoPairKicker cardsIn (max (faceCountAt cardsIn 0).1 (faceCountAt cardsIn 1).1)
          (min (faceCountAt cardsIn 0).1 (faceCountAt cardsIn 1).1))
  else if (faceCountAt cardsIn 0).2 == 2 then
    (Tier.ONE_PAIR, Tier.ONE_PAIR.value * 1000000
      + (faceCountAt cardsIn 0).1 * 10000
      + (kickersOf cardsIn (faceCountAt cardsIn 0).1).getD 0 0 * 1000
      + (kickersOf cardsIn (faceCountAt cardsIn 0).1).getD 1 0 * 100
      + (kickersOf cardsIn (faceCountAt cardsIn 0).1).getD 2 0 * 10)
  else
    (Tier.HIGH_CARD, (facesOf cardsIn).getD 0 0 * 10000 + (facesOf cardsIn).getD 1 0 * 1000
      + (facesOf cardsIn).getD 2 0 * 100 + (facesOf cardsIn).getD 3 0 * 10
      + (facesOf cardsIn).getD 4 0)

/-- Port of `PokerHand.best`: the maximum-score 5-card subset.  Python `max`
scans left to right keeping the incumbent on ties; the enumeration order of
`itertools.combinations` differs from `sublistsLen` but the maximal score,
which is all the claims compare, does not depend on it. -/
def best (cards : List Card) : List Card :=
  match List.sublistsLen 5 cards with
  | [] => []
  | c :: cs =>
      cs.foldl (fun acc x => if (evaluate_score acc).2 < (evaluate_score x).2 then x else acc) c

namespace Deck

/-- Port of `Deck.draw` (Deck.py lines 21-25): pop the top (last) card when
non-empty, otherwise return `None` — the empty case is an ordinary return,
not a failure. -/
def draw (cards : List Card) : Option Card × List Card :=
  match cards.getLast? with
  | some c => (some c, cards.dropLast)
  | none => (none, cards)

/-- Port of `Deck.sample` (Deck.py lines 27-31): assert the deck is non-empty
(assertion failure modelled as `none`), then pop the top (last) card. -/
def sample (cards : List Card) : Option (Card × List Card) :=
  match cards.getLast? with
  | some c => some (c, cards.dropLast)
  | none => none

end Deck

/-- `Action.Type` from Action.py. -/
inductive ActionType
  | FOLD | RAISE | CALL | CHECK | ALL_IN
  deriving DecidableEq

/-- The `Action` dataclass from Action.py; `Money` amounts are Python ints. -/
structure Action where
  type : ActionType
  amount : Int
  deriving DecidableEq

/-- The `Player` dataclass from Player.py (the `strategy` field lives outside
the engine state; the engine consults it only through the action oracle). -/
structure Player where
  money : Int
  cards : List Card
  folded : Bool
  all_in : Bool
  bet : Int
  deriving DecidableEq

instance : Inhabited Player := ⟨⟨0, [], false, false, 0⟩⟩

/-- Index-aware map over the player list, used for the Python
`for idx, play in enumerate(...)` loops that rebind each player. -/
def mapIdxAux (f : Nat → Player → Player) : Nat → List Player → List Player
  | _, [] => []
  | i, p :: ps => f i p :: mapIdxAux f (i + 1) ps

/-- `mapIdxAux` starting at index 0. -/
def mapIdxPlayers (f : Nat → Player → Player) (l : List Player) : List Player :=
  mapIdxAux f 0 l

/-- `TableState.Round` from TableState.py.  The engine advances
PREFLOP → FLOP → RIVER → TURN (RIVER and TURN are swapped relative to
customary naming; the source order is kept literally). -/
inductive Round
  | PREFLOP | FLOP | TURN | RIVER
  deriving DecidableEq

/-- `Table.Event` from Table.py. -/
inductive Event
  | RESET | NEW_ROUND | SMALL_BLIND | BIG_BLIND | DEAL_PLAYER_CARD | QUERY_PLAYER
  | START_BETTING_ROUND | SHOWDOWN | INCREASE_ROUND | INCREMENT_BUTTONS
  | DETERMINE_WINNER | DONE
  deriving DecidableEq

/-- The `TableState` dataclass from TableState.py. -/
structure TableState where
  round : Round
  cards : List Card
  players : List Player
  player_at_hand_index : Nat
  small_blind_index : Nat
  small_blind_amount : Int
  big_blind_index : Nat
  big_blind_amount : Int
  deriving DecidableEq

/-- Python `max` over a list of ints (the source only calls it on non-empty
lists; the model returns 0 on the empty list where Python would raise). -/
def listMaxInt (l : List Int) : Int := l.foldr max 0

/-- `TableState.num_players`. -/
def TableState.num_players (s : TableState) : Nat := s.players.length

/-- `TableState.num_nonfolded_players`. -/
def TableState.num_nonfolded_players (s : TableState) : Nat :=
  (s.players.filter fun p => !p.folded && (decide (p.money > 0) || p.all_in)).length

/-- `TableState.num_bettable_players`. -/
def TableState.num_bettable_players (s : TableState) : Nat :=
  (s.players.filter fun p => !p.folded && decide (p.money > 0)).length

/-- `TableState.current_player` (list indexing modelled with `getD`). -/
def TableState.current_player (s : TableState) : Player :=
  s.players.getD s.player_at_hand_index default

/-- `TableState.max_bet`: highest standing bet of active players. -/
def TableState.max_bet (s : TableState) : Int :=
  listMaxInt ((s.players.filter fun p => decide (p.bet > 0) && !p.folded).map (·.bet))

/-- `TableState.call_amount`. -/
def TableState.call_amount (s : TableState) : Int := s.max_bet - s.current_player.bet

/-- `TableState.pot`: the sum of all players' bets. -/
def TableState.pot (s : TableState) : Int := (s.players.map (·.bet)).sum

/-- Port of `TableState.obscure_for_player` (TableState.py lines 71-79):
`copy.deepcopy` of the state (value copying in this embedding) followed by
clearing the private cards of every player other than `player_id`. -/
def TableState.obscure_for_player (other : TableState) (player_id : Nat) : TableState :=
  { other with
    players := mapIdxPlayers (fun idx p =>
      if idx ≠ player_id then { p with cards := [] } else p) other.players }

/-- The mutable parts of a `Table` object: authoritative state, the pristine
`_init_state`, the deck's remaining cards, the `_queried` map (a list aligned
with the player list), the scheduled event `_q` and the round counter. -/
structure TableSt where
  state : TableState
  init_state : TableState
  deck : List Card
  queried : List Bool
  q : Event
  round_counter : Nat

/-- In-place mutation of `players[i]`, as the Python code does through the
`play` alias. -/
def modifyAt (l : List Player) (i : Nat) (f : Player → Player) : List Player :=
  match l, i with
  | [], _ => []
  | p :: ps, 0 => f p :: ps
  | p :: ps, Nat.succ n => p :: modifyAt ps n f

/-- Port of `Table.__search_next_player`: scan forward circularly for the
first seat that is neither folded nor broke.  The Python `while` loop never
terminates when no such seat exists; the model falls back to the first
scanned index in that (unreachable) case. -/
def searchNextPlayer (players : List Player) (p_idx : Nat) : Nat :=
  let n := players.length
  match (List.range n).find? (fun k =>
      let p := players.getD ((p_idx + 1 + k) % n) default
      !(p.folded || p.money == 0)) with
  | some k => (p_idx + 1 + k) % n
  | none => (p_idx + 1) % n

/-- Port of `Table._validateAction` (Table.py lines 346-402).  `Money` is a
Python `int`, so the fractional-amount guard (`int(amount) != amount`) can
never fire and has no counterpart here. -/
def validateAction (state : TableState) (action : Action) : Action :=
  let play_money : Int := state.current_player.money
  let foldAction : Action := ⟨ActionType.FOLD, 0⟩
  if action.amount < 0 then foldAction
  else if action.amount > play_money then foldAction
  else if action.type = ActionType.FOLD ∧ action.amount > 0 then foldAction
  else if action.type = ActionType.ALL_IN ∧ action.amount < play_money then foldAction
  else if action.amount = play_money then ⟨ActionType.ALL_IN, play_money⟩
  else if action.amount < state.call_amount ∧ action.type ≠ ActionType.FOLD then foldAction
  else if action.amount = 0 ∧ action.type ≠ ActionType.FOLD then ⟨ActionType.CHECK, 0⟩
  else action

/-- Port of `Table._implement_player_action` (Table.py lines 329-344),
validation included. -/
def implement_player_action (state : TableState) (action0 : Action) : TableState :=
  let play_idx := state.player_at_hand_index
  let action := validateAction state action0
  let players := modifyAt state.players play_idx fun p =>
    let p1 := { p with bet := p.bet + action.amount, money := p.money - action.amount }
    if action.type = ActionType.FOLD then { p1 with folded := true }
    else if action.type = ActionType.ALL_IN then { p1 with all_in := true }
    else p1
  { state with players := players }

/-- The INCREMENT_BUTTONS branch of `Table._execute` (Table.py lines 269-287):
reset every player's bet/folded/all_in/cards, rotate the blinds and the acting
seat, schedule NEW_ROUND. -/
def execIncrementButtons (s : TableSt) : TableSt :=
  let players := s.state.players.map fun p =>
    { p with bet := 0, folded := false, all_in := false, cards := [] }
  let sb := searchNextPlayer players s.state.small_blind_index
  let bb := searchNextPlayer players sb
  let at_hand := searchNextPlayer players bb
  { s with
    state := { s.state with
      players := players, small_blind_index := sb, big_blind_index := bb,
      player_at_hand_index := at_hand },
    q := Event.NEW_ROUND }

/-- Showdown score of one contender: `PokerHand.best(community + hole)` when
exactly 7 cards are available, else the Python int literal `0`
(Table.py lines 224-236). -/
def showdownScore (community hole : List Card) : Nat :=
  if (community ++ hole).length == 7 then (evaluate_score (best (community ++ hole))).2 else 0

/-- `remaining_players` of the DETERMINE_WINNER branch: the non-folded players
with a positive bet, as `(index, player, score)` triples. -/
def remainingPlayers (st : TableState) : List (Nat × Player × Nat) :=
  (st.players.enum.map fun x => (x.1, x.2, showdownScore st.cards x.2.cards)).filter
    fun x => decide (x.2.1.bet > 0) && !x.2.1.folded

/-- `winner_idx` of the DETERMINE_WINNER branch: indices of the contenders
holding the maximum score (computed, as in the source, from the list sorted
ascending by score). -/
def winnerIdxOf (st : TableState) : List Nat :=
  let sortedRem := (remainingPlayers st).insertionSort fun a b => a.2.2 ≤ b.2.2
  let max_score := listMax (sortedRem.map fun x => x.2.2)
  (sortedRem.filter fun x => x.2.2 == max_score).map fun x => x.1

/-- The DETERMINE_WINNER branch of `Table._execute` (Table.py lines 222-268):
among non-folded players with a positive bet, a sole contender takes the whole
pot; otherwise the tied maximum-score contenders each receive
`pot // len(winner_idx)` (remainder paid to nobody).  Always chains into
INCREMENT_BUTTONS. -/
def execDetermineWinner (s : TableSt) : TableSt × List Event :=
  let st := s.state
  let remaining := remainingPlayers st
  if remaining.length == 1 then
    let win_idx := (remaining.getD 0 default).1
    let players := modifyAt st.players win_idx fun p => { p with money := p.money + st.pot }
    (execIncrementButtons { s with state := { st with players := players } },
      [Event.DETERMINE_WINNER, Event.INCREMENT_BUTTONS])
  else
    let winner_idx := winnerIdxOf st
    let pot := st.pot
    let players := mapIdxPlayers (fun idx p =>
      if winner_idx.contains idx then
        { p with money := p.money + pot.fdiv winner_idx.length } else p) st.players
    (execIncrementButtons { s with state := { st with players := players } },
      [Event.DETERMINE_WINNER, Event.INCREMENT_BUTTONS])

/-- Draw `n` cards off the top of the deck (in order); `none` when the deck
runs out. -/
def sampleN (deck : List Card) : Nat → Option (List Card × List Card)
  | 0 => some ([], deck)
  | n + 1 =>
    match Deck.sample deck with
    | none => none
    | some (c, deck1) =>
      match sampleN deck1 n with
      | none => none
      | some (cs, rest) => some (c :: cs, rest)

/-- Port of `Table._deal_card_to_table` (Table.py lines 312-317): burn
`num_burn` cards, then append `num_cards` cards to the community cards. -/
def dealCardToTable (s : TableSt) (num_cards num_burn : Nat) : Option TableSt :=
  match sampleN s.deck num_burn with
  | none => none
  | some (_, deck1) =>
    match sampleN deck1 num_cards with
    | none => none
    | some (cs, deck2) =>
      some { s with deck := deck2, state := { s.state with cards := s.state.cards ++ cs } }

/-- The INCREASE_ROUND branch of `Table._execute` (Table.py lines 288-301). -/
def execIncreaseRound (s : TableSt) : Option TableSt :=
  match s.state.round with
  | Round.PREFLOP =>
    (dealCardToTable s 3 1).map fun s1 =>
      { s1 with state := { s1.state with round := Round.FLOP }, q := Event.START_BETTING_ROUND }
  | Round.FLOP =>
    (dealCardToTable s 1 1).map fun s1 =>
      { s1 with state := { s1.state with round := Round.RIVER }, q := Event.START_BETTING_ROUND }
  | Round.RIVER =>
    (dealCardToTable s 1 1).map fun s1 =>
      { s1 with state := { s1.state with round := Round.TURN }, q := Event.START_BETTING_ROUND }
  | Round.TURN => some { s with q := Event.SHOWDOWN }

/-- The START_BETTING_ROUND branch of `Table._execute` (Table.py lines
167-177). -/
def execStartBettingRound (s : TableSt) : TableSt :=
  let UTG := searchNextPlayer s.state.players s.state.big_blind_index
  { s with
    state := { s.state with player_at_hand_index := UTG },
    queried := s.state.players.map fun p => p.folded || p.money == 0,
    q := Event.QUERY_PLAYER }

/-- The NEW_ROUND branch of `Table._execute` (Table.py lines 121-138);
`newDeck` stands for the freshly shuffled deck built by `Deck(shuffle=True)`. -/
def execNewRound (s : TableSt) (newDeck : List Card) : TableSt :=
  let remain := s.state.players.filter fun p => decide (p.money > 0)
  if remain.length == 1 then { s with q := Event.DONE }
  else
    { s with
      round_counter := s.round_counter + 1,
      deck := newDeck,
      state := { s.state with round := Round.PREFLOP, cards := [] },
      q := Event.DEAL_PLAYER_CARD }

/-- Posting one blind (the body of the two blind blocks in DEAL_PLAYER_CARD):
the bet is `min(amount, money)`, `all_in` is set exactly when it consumes the
whole stack (tested before the money is decremented, as in the source). -/
def postBlind (amount : Int) : Player → Player := fun p =>
  { p with all_in := min amount p.money == p.money,
           money := p.money - min amount p.money,
           bet := p.bet + min amount p.money }

/-- The blind postings of DEAL_PLAYER_CARD: the acting seat posts the small
and/or the big blind when it carries the corresponding button. -/
def dealBlinds (st : TableState) : List Player :=
  let players1 :=
    if st.player_at_hand_index = st.small_blind_index then
      modifyAt st.players st.player_at_hand_index (postBlind st.small_blind_amount)
    else st.players
  if st.player_at_hand_index = st.big_blind_index then
    modifyAt players1 st.player_at_hand_index (postBlind st.big_blind_amount)
  else players1

/-- The DEAL_PLAYER_CARD branch of `Table._execute` (Table.py lines 139-166):
post the small/big blind for the acting seat if applicable, deal two hole
cards, advance the acting seat and re-schedule; once the acting seat already
holds cards, schedule START_BETTING_ROUND. -/
def execDealPlayerCard (s : TableSt) : Option TableSt :=
  let st := s.state
  let play_idx := st.player_at_hand_index
  let play := st.players.getD play_idx default
  if play.cards.length == 0 then
    match Deck.sample s.deck with
    | none => none
    | some (card1, deck1) =>
      match Deck.sample deck1 with
      | none => none
      | some (card2, deck2) =>
        let players3 := modifyAt (dealBlinds st) play_idx
          fun p => { p with cards := [card1, card2] }
        some { s with
          deck := deck2,
          state := { st with
            players := players3,
            player_at_hand_index := searchNextPlayer players3 play_idx },
          q := Event.DEAL_PLAYER_CARD }
  else
    some { s with q := Event.START_BETTING_ROUND }

/-- The mutations of the QUERY_PLAYER main path (Table.py lines 196-200):
obtain the action from the acting player's strategy (invoked, as in
`Table._get_player_action`, on the information-restricted snapshot and the
acting player), validate and apply it, mark the seat as queried and advance
the acting seat. -/
def queryImplementedState (strat : TableState → Player → Action) (s : TableSt) : TableSt :=
  let st := s.state
  let play_idx := st.player_at_hand_index
  let action := strat (st.obscure_for_player play_idx) st.current_player
  let st1 := implement_player_action st action
  { s with
    state := { st1 with player_at_hand_index := searchNextPlayer st1.players play_idx },
    queried := s.queried.set play_idx true }

/-- `betting_equal` (Table.py lines 203-209), computed on the post-action
players (the acting-seat advance does not change the player list).
`other == play` compares each seat against the acting player's freshly
mutated object; it is rendered as index equality with the acting seat. -/
def bettingEqual (strat : TableState → Player → Action) (s : TableSt) : Bool :=
  let st := s.state
  let play_idx := st.player_at_hand_index
  let action := strat (st.obscure_for_player play_idx) st.current_player
  let st1 := implement_player_action st action
  let play := st1.players.getD play_idx default
  st1.players.enum.all fun other =>
    other.2.folded || other.1 == play_idx
      || (other.2.all_in && decide (play.bet ≥ other.2.bet))
      || (!other.2.all_in && (other.2.money == 0 || other.2.bet == play.bet))

/-- The QUERY_PLAYER branch of `Table._execute` (Table.py lines 178-221). -/
def execQueryPlayer (strat : TableState → Player → Action) (s : TableSt) :
    Option (TableSt × List Event) :=
  let st := s.state
  if st.num_nonfolded_players == 1 then
    some ({ s with q := Event.DETERMINE_WINNER }, [Event.QUERY_PLAYER])
  else if st.num_bettable_players == 1 then
    some ({ s with q := Event.SHOWDOWN }, [Event.QUERY_PLAYER])
  else
    let s1 := queryImplementedState strat s
    if s1.state.num_nonfolded_players == 1 then
      some ((execDetermineWinner s1).1, Event.QUERY_PLAYER :: (execDetermineWinner s1).2)
    else if bettingEqual strat s && s1.queried.all id then
      match execIncreaseRound s1 with
      | none => none
      | some s2 => some (s2, [Event.QUERY_PLAYER, Event.INCREASE_ROUND])
    else
      some ({ s1 with q := Event.QUERY_PLAYER }, [Event.QUERY_PLAYER])

/-- One iteration of the SHOWDOWN `while` loop: run INCREASE_ROUND unless all
community cards are already out (round = TURN). -/
def fillOnce (s : TableSt) : Option (TableSt × List Event) :=
  if s.state.round = Round.TURN then some (s, [])
  else (execIncreaseRound s).map fun s1 => (s1, [Event.INCREASE_ROUND])

/-- The SHOWDOWN branch of `Table._execute` (Table.py lines 302-308): the
round advances PREFLOP → FLOP → RIVER → TURN, so the `while` loop runs at most
three times; then DETERMINE_WINNER runs. -/
def execShowdown (s : TableSt) : Option (TableSt × List Event) :=
  match fillOnce s with
  | none => none
  | some (s1, c1) =>
    match fillOnce s1 with
    | none => none
    | some (s2, c2) =>
      match fillOnce s2 with
      | none => none
      | some (s3, c3) =>
        some ((execDetermineWinner s3).1,
          Event.SHOWDOWN :: (c1 ++ c2 ++ c3 ++ (execDetermineWinner s3).2))

/-- The RESET branch of `Table._execute` (Table.py lines 113-120). -/
def execReset (s : TableSt) (newDeck : List Card) : TableSt :=
  { s with state := s.init_state, queried := [], deck := newDeck,
           round_counter := 0, q := Event.NEW_ROUND }

/-- One call of `Table._execute` on an event.  The source's failure modes —
`assert False` on an unhandled event NAME and `Deck.sample` on an empty deck —
are both modelled as `none`. -/
def execute (strat : TableState → Player → Action) (newDeck : List Card)
    (s : TableSt) : Event → Option (TableSt × List Event)
  | Event.RESET => some (execReset s newDeck, [Event.RESET])
  | Event.NEW_ROUND => some (execNewRound s newDeck, [Event.NEW_ROUND])
  | Event.DEAL_PLAYER_CARD => (execDealPlayerCard s).map fun s1 => (s1, [Event.DEAL_PLAYER_CARD])
  | Event.START_BETTING_ROUND => some (execStartBettingRound s, [Event.START_BETTING_ROUND])
  | Event.QUERY_PLAYER => execQueryPlayer strat s
  | Event.DETERMINE_WINNER => some (execDetermineWinner s)
  | Event.INCREMENT_BUTTONS => some (execIncrementButtons s, [Event.INCREMENT_BUTTONS])
  | Event.INCREASE_ROUND => (execIncreaseRound s).map fun s1 => (s1, [Event.INCREASE_ROUND])
  | Event.SHOWDOWN => execShowdown s
  | Event.SMALL_BLIND => none
  | Event.BIG_BLIND => none
  | Event.DONE => none

/-- Port of `Table.step`: run the scheduled transition unless DONE (in which
case nothing happens). -/
def step (strat : TableState → Player → Action) (newDeck : List Card)
    (s : TableSt) : Option (TableSt × List Event) :=
  if s.q = Event.DONE then some (s, []) else execute strat newDeck s s.q

/-- The events the engine ever installs as the scheduled `_q`: every argument
of a `_schedule` call in Table.py plus the direct `_q = DONE` assignment in
NEW_ROUND.  RESET, SMALL_BLIND, BIG_BLIND and INCREMENT_BUTTONS are never
scheduled. -/
def Event.schedulable : Event → Prop := fun e =>
  e = Event.NEW_ROUND ∨ e = Event.DEAL_PLAYER_CARD ∨ e = Event.START_BETTING_ROUND
  ∨ e = Event.QUERY_PLAYER ∨ e = Event.SHOWDOWN ∨ e = Event.DETERMINE_WINNER
  ∨ e = Event.DONE

/-- Total chips in front of the players: stack plus standing bet, summed. -/
def msum (players : List Player) : Int := (players.map fun p => p.money + p.bet).sum

/-- `players[i]`, used in theorem statements (indices are valid wherever this
appears). -/
def playerAt (l : List Player) (i : Nat) : Player := l.getD i default

/-- The wheel hand {A, 2, 3, 4, 5} with arbitrary suits. -/
def wheelHand (s1 s2 s3 s4 s5 : Suit) : List Card :=
  [⟨s1, .ACE⟩, ⟨s2, .TWO⟩, ⟨s3, .THREE⟩, ⟨s4, .FOUR⟩, ⟨s5, .FIVE⟩]

/-- The six-high straight {2, 3, 4, 5, 6} with arbitrary suits. -/
def sixHighHand (s1 s2 s3 s4 s5 : Suit) : List Card :=
  [⟨s1, .TWO⟩, ⟨s2, .THREE⟩, ⟨s3, .FOUR⟩, ⟨s4, .FIVE⟩, ⟨s5, .SIX⟩]

/-- The suit values, in the Python enum order. -/
def allSuits : List Suit := [Suit.c, Suit.s, Suit.h, Suit.d]

/-- The face values, in the Python enum order. -/
def allFaces : List Face :=
  [.TWO, .THREE, .FOUR, .FIVE, .SIX, .SEVEN, .EIGHT, .NINE, .TEN, .JACK, .QUEEN, .KING, .ACE]

/-- The 52-card deck built by the `Deck` constructor:
`[Card(suit, face) for suit in Card.Suit for face in Card.Face]`. -/
def fullDeck : List Card := (allSuits.map fun su => allFaces.map fun f => Card.mk su f).flatten

/-- A strategy constantly folding (`Strategies.py` has such a `Folder`). -/
def strat0 : TableState → Player → Action := fun _ _ => ⟨ActionType.FOLD, 0⟩

/-- A small two-player table state used to instantiate theorems. -/
def simpleState : TableState :=
  { round := Round.PREFLOP, cards := [],
    players := [⟨5, [], false, false, 0⟩, ⟨10, [], false, false, 2⟩],
    player_at_hand_index := 0, small_blind_index := 0, small_blind_amount := 1,
    big_blind_index := 1, big_blind_amount := 2 }

/-- A table about to start a new hand from `simpleState`. -/
def simpleTable : TableSt :=
  { state := simpleState, init_state := simpleState, deck := [], queried := [],
    q := Event.NEW_ROUND, round_counter := 0 }

/-- A showdown state with two tied contenders (bets 2 and 3, pot 5). -/
def c5State : TableState :=
  { round := Round.TURN, cards := [],
    players := [⟨0, [], false, false, 2⟩, ⟨0, [], false, false, 3⟩],
    player_at_hand_index := 0, small_blind_index := 0, small_blind_amount := 1,
    big_blind_index := 1, big_blind_amount := 2 }

/-- A table scheduled to resolve the `c5State` showdown. -/
def c5Table : TableSt :=
  { state := c5State, init_state := c5State, deck := [], queried := [],
    q := Event.DETERMINE_WINNER, round_counter := 1 }

/-- Number of seats already holding hole cards. -/
def cardsDealt (players : List Player) : Nat :=
  (players.filter fun p => !(p.cards.length == 0)).length

/-- Cards consumed from the deck for the community stage reached: the flop
burns 1 and deals 3; each later street burns 1 and deals 1. -/
def consumed : Round → Nat
  | Round.PREFLOP => 0
  | Round.FLOP => 4
  | Round.RIVER => 6
  | Round.TURN => 8

/-- Deck accounting within a hand: the remaining deck is 52 cards minus two
per dealt seat minus the community consumption of the round reached. -/
def DeckInv (s : TableSt) : Prop :=
  s.deck.length + 2 * cardsDealt s.state.players + consumed s.state.round = 52

/-- Reachability invariant of the engine: player-count bounds (the `Table`
constructor asserts 1..22 players), a valid acting index, a scheduled (never
directly executed) event, empty hole cards when a hand is about to start,
PREFLOP while hole cards are being dealt, and the deck accounting while a
hand is underway. -/
def Inv (s : TableSt) : Prop :=
  1 ≤ s.state.players.length ∧ s.state.players.length ≤ 22
  ∧ s.state.player_at_hand_index < s.state.players.length
  ∧ s.q.schedulable
  ∧ (s.q = Event.NEW_ROUND → ∀ p ∈ s.state.players, p.cards = [])
  ∧ (s.q = Event.DEAL_PLAYER_CARD → s.state.round = Round.PREFLOP)
  ∧ ((s.q = Event.DEAL_PLAYER_CARD ∨ s.q = Event.START_BETTING_ROUND
      ∨ s.q = Event.QUERY_PLAYER ∨ s.q = Event.SHOWDOWN ∨ s.q = Event.DETERMINE_WINNER)
      → DeckInv s)

/-! ### Helper lemmas -/

theorem msum_cons (p : Player) (ps : List Player) :
    msum (p :: ps) = (p.money + p.bet) + msum ps := by
  simp [msum]

theorem modifyAt_length (l : List Player) (i : Nat) (f : Player → Player) :
    (modifyAt l i f).length = l.length := by
  induction l generalizing i with
  | nil => rfl
  | cons p ps ih =>
    cases i with
    | zero => rfl
    | succ n => simpa [modifyAt] using ih n

theorem modifyAt_getD_self (l : List Player) (i : Nat) (f : Player → Player)
    (hi : i < l.length) :
    (modifyAt l i f).getD i default = f (l.getD i default) := by
  induction l generalizing i with
  | nil => simp at hi
  | cons p ps ih =>
    cases i with
    | zero => rfl
    | succ n => simpa [modifyAt] using ih n (by simpa using hi)

theorem msum_modifyAt (l : List Player) (i : Nat) (f : Player → Player)
    (hf : ∀ p, (f p).money + (f p).bet = p.money + p.bet) :
    msum (modifyAt l i f) = msum l := by
  induction l generalizing i with
  | nil => rfl
  | cons p ps ih =>
    cases i with
    | zero => simp [modifyAt, msum_cons, hf p]
    | succ n => simp [modifyAt, msum_cons, ih n]

theorem mapIdxAux_length (f : Nat → Player → Player) (l : List Player) (i : Nat) :
    (mapIdxAux f i l).length = l.length := by
  induction l generalizing i with
  | nil => rfl
  | cons p ps ih => simpa [mapIdxAux] using ih (i + 1)

theorem mapIdxAux_getD (f : Nat → Player → Player) (l : List Player) (i j : Nat)
    (hj : j < l.length) :
    (mapIdxAux f i l).getD j default = f (i + j) (l.getD j default) := by
  induction l generalizing i j with
  | nil => simp at hj
  | cons p ps ih =>
    cases j with
    | zero => simp [mapIdxAux]
    | succ n =>
      have harith : i + (n + 1) = (i + 1) + n := by omega
      rw [harith]
      simpa [mapIdxAux] using ih (i + 1) n (by simpa using hj)

theorem playerAt_mapIdxPlayers (f : Nat → Player → Player) (l : List Player) (j : Nat)
    (hj : j < l.length) :
    playerAt (mapIdxPlayers f l) j = f j (playerAt l j) := by
  simpa [playerAt, mapIdxPlayers] using mapIdxAux_getD f l 0 j hj

theorem playerAt_map (g : Player → Player) (l : List Player) (j : Nat)
    (hj : j < l.length) :
    playerAt (l.map g) j = g (playerAt l j) := by
  induction l generalizing j with
  | nil => simp at hj
  | cons p ps ih =>
    cases j with
    | zero => rfl
    | succ n => simpa [playerAt] using ih n (by simpa using hj)

/-! ### Claims about the hand evaluator -/

/-- C1: refuted on the code.  The ONE_PAIR hands Q♣ Q♠ A♥ K♦ J♣ and
K♣ K♠ 4♥ 3♦ 2♣ are both scored in the ONE_PAIR tier; standard poker ranking
puts the pair of kings strictly above the pair of queens regardless of
kickers, yet the evaluator scores the pair of queens strictly higher: the
kicker terms (up to 14·1000 + 13·100 + 12·10 = 15420) overflow the
10000-per-pair-rank weighting. -/
theorem claim_C1_one_pair_order_violated :
    evaluate_score [⟨.c, .QUEEN⟩, ⟨.s, .QUEEN⟩, ⟨.h, .ACE⟩, ⟨.d, .KING⟩, ⟨.c, .JACK⟩]
        = (Tier.ONE_PAIR, 1135410)
    ∧ evaluate_score [⟨.c, .KING⟩, ⟨.s, .KING⟩, ⟨.h, .FOUR⟩, ⟨.d, .THREE⟩, ⟨.c, .TWO⟩]
        = (Tier.ONE_PAIR, 1134320)
    ∧ (1134320 : Nat) < 1135410 :=
  ⟨by decide, by decide, by decide⟩

theorem wheel_eval : ∀ s1 s2 s3 s4 s5 : Suit,
    evaluate_score (wheelHand s1 s2 s3 s4 s5)
      = if s1 = s2 ∧ s2 = s3 ∧ s3 = s4 ∧ s4 = s5
        then (Tier.STRAIGHT_FLUSH, 8000005) else (Tier.STRAIGHT, 4000005) := by
  decide

theorem sixHigh_eval : ∀ s1 s2 s3 s4 s5 : Suit,
    evaluate_score (sixHighHand s1 s2 s3 s4 s5)
      = if s1 = s2 ∧ s2 = s3 ∧ s3 = s4 ∧ s4 = s5
        then (Tier.STRAIGHT_FLUSH, 8000006) else (Tier.STRAIGHT, 4000006) := by
  decide

/-- C6: the wheel {A, 2, 3, 4, 5} evaluates to a STRAIGHT (STRAIGHT_FLUSH
when suit-uniform) whose tie-break term is 5 (not 14), and its score is
strictly below that of any six-high straight {2, 3, 4, 5, 6} of the same
tier. -/
theorem claim_C6_wheel_below_six_high (a1 a2 a3 a4 a5 b1 b2 b3 b4 b5 : Suit)
    (hsame : (evaluate_score (wheelHand a1 a2 a3 a4 a5)).1
      = (evaluate_score (sixHighHand b1 b2 b3 b4 b5)).1) :
    ((evaluate_score (wheelHand a1 a2 a3 a4 a5)).1 = Tier.STRAIGHT
      ∨ (evaluate_score (wheelHand a1 a2 a3 a4 a5)).1 = Tier.STRAIGHT_FLUSH)
    ∧ (evaluate_score (wheelHand a1 a2 a3 a4 a5)).2 % 1000000 = 5
    ∧ (evaluate_score (wheelHand a1 a2 a3 a4 a5)).2
      < (evaluate_score (sixHighHand b1 b2 b3 b4 b5)).2 := by
  rw [wheel_eval a1 a2 a3 a4 a5, sixHigh_eval b1 b2 b3 b4 b5] at hsame ⊢
  split_ifs at hsame ⊢ <;> first | exact absurd hsame (by decide) | decide

theorem claim_C6_witness :
    ((evaluate_score (wheelHand .c .c .c .c .c)).1
      = (evaluate_score (sixHighHand .c .c .c .c .c)).1)
    ∧ (((evaluate_score (wheelHand .c .c .c .c .c)).1 = Tier.STRAIGHT
        ∨ (evaluate_score (wheelHand .c .c .c .c .c)).1 = Tier.STRAIGHT_FLUSH)
      ∧ (evaluate_score (wheelHand .c .c .c .c .c)).2 % 1000000 = 5
      ∧ (evaluate_score (wheelHand .c .c .c .c .c)).2
        < (evaluate_score (sixHighHand .c .c .c .c .c)).2) :=
  ⟨by decide, claim_C6_wheel_below_six_high .c .c .c .c .c .c .c .c .c .c (by decide)⟩

/-! ### Claims about the deck -/

/-- C9 (amended): both `draw` and `sample` remove and return the top (last)
card of a non-empty deck; on the empty deck `sample` fails its assertion while
`draw` returns `None` as an ordinary value. -/
theorem claim_C9_sample_draw (l : List Card) (h : l ≠ []) :
    (∃ c, l.getLast? = some c ∧ Deck.draw l = (some c, l.dropLast)
       ∧ Deck.sample l = some (c, l.dropLast))
    ∧ Deck.sample ([] : List Card) = none
    ∧ Deck.draw ([] : List Card) = (none, []) := by
  refine ⟨?_, rfl, rfl⟩
  obtain ⟨c, hc⟩ := Option.isSome_iff_exists.mp (List.getLast?_isSome.mpr h)
  exact ⟨c, hc, by simp [Deck.draw, hc], by simp [Deck.sample, hc]⟩

/-- C9 counterexample: on the empty deck `draw` returns the ordinary value
`None` — it has no failure branch at all — whereas the claim asserts that
`draw`, like `sample`, fails with an exhaustion error there. -/
theorem claim_C9_counterexample :
    Deck.draw ([] : List Card) = (none, [])
    ∧ ∀ c rest, Deck.draw ([] : List Card) ≠ (some c, rest) :=
  ⟨rfl, fun c rest hcontra => by simp [Deck.draw] at hcontra⟩

theorem claim_C9_witness :
    ([(⟨Suit.c, Face.TWO⟩ : Card)] ≠ [])
    ∧ ((∃ c, [(⟨Suit.c, Face.TWO⟩ : Card)].getLast? = some c
        ∧ Deck.draw [(⟨Suit.c, Face.TWO⟩ : Card)] = (some c, [].dropLast)
        ∧ Deck.sample [(⟨Suit.c, Face.TWO⟩ : Card)] = some (c, [].dropLast))
      ∧ Deck.sample ([] : List Card) = none
      ∧ Deck.draw ([] : List Card) = (none, [])) := by
  refine ⟨by decide, ?_⟩
  simpa using claim_C9_sample_draw [⟨Suit.c, Face.TWO⟩] (by decide)

/-! ### Claims about action validation -/

/-- C3 (amended): when the acting player holds money m > 0 and the strategy
returns an action of amount exactly m whose declared type is not FOLD, the
action is normalized to ALL_IN and applied as such: the bet grows by m, the
money drops to 0 and `all_in` is set.  (A declared FOLD with amount m > 0 is
instead normalized to a fold of 0 by the earlier rule 4, so the original
"regardless of the declared type" fails — see the counterexample.) -/
theorem claim_C3_all_in_normalization (st : TableState) (a : Action)
    (hidx : st.player_at_hand_index < st.players.length)
    (hm : 0 < st.current_player.money)
    (hamt : a.amount = st.current_player.money)
    (hty : a.type ≠ ActionType.FOLD) :
    validateAction st a = ⟨ActionType.ALL_IN, st.current_player.money⟩
    ∧ (playerAt (implement_player_action st a).players st.player_at_hand_index).money = 0
    ∧ (playerAt (implement_player_action st a).players st.player_at_hand_index).bet
        = st.current_player.bet + st.current_player.money
    ∧ (playerAt (implement_player_action st a).players st.player_at_hand_index).all_in
        = true := by
  have hval : validateAction st a = ⟨ActionType.ALL_IN, st.current_player.money⟩ := by
    simp only [validateAction]
    rw [hamt]
    have hnlt : ¬ st.current_player.money < 0 := by omega
    have hngt : ¬ st.current_player.money > st.current_player.money := by omega
    have hnfold : ¬ (a.type = ActionType.FOLD ∧ st.current_player.money > 0) :=
      fun h => hty h.1
    have hnall : ¬ (a.type = ActionType.ALL_IN ∧
        st.current_player.money < st.current_player.money) :=
      fun h => absurd h.2 (by omega)
    rw [if_neg hnlt, if_neg hngt, if_neg hnfold, if_neg hnall, if_pos rfl]
  have hplayers : (implement_player_action st a).players
      = modifyAt st.players st.player_at_hand_index (fun p =>
          { p with bet := p.bet + st.current_player.money,
                   money := p.money - st.current_player.money, all_in := true }) := by
    simp only [implement_player_action, hval]
    rfl
  have hget := modifyAt_getD_self st.players st.player_at_hand_index
      (fun p => { p with bet := p.bet + st.current_player.money, money := p.money - st.current_player.money, all_in := true }) hidx
  refine ⟨hval, ?_, ?_, ?_⟩ <;>
    (simp only [playerAt, hplayers, hget] <;> simp [TableState.current_player])

/-- C3 counterexample: the acting player of `simpleState` holds money 5, and
the strategy-returned action (FOLD, 5) has amount exactly 5; the engine
applies it as a plain fold — money stays 5, no chip moves, `all_in` stays
false — not as ALL_IN, because rule 4 (FOLD with positive amount → FOLD 0)
fires before the all-in normalization. -/
theorem claim_C3_counterexample :
    0 < simpleState.current_player.money
    ∧ (Action.mk ActionType.FOLD 5).amount = simpleState.current_player.money
    ∧ validateAction simpleState ⟨ActionType.FOLD, 5⟩ = ⟨ActionType.FOLD, 0⟩
    ∧ (playerAt (implement_player_action simpleState ⟨ActionType.FOLD, 5⟩).players 0).money = 5
    ∧ (playerAt (implement_player_action simpleState ⟨ActionType.FOLD, 5⟩).players 0).all_in
        = false
    ∧ (playerAt (implement_player_action simpleState ⟨ActionType.FOLD, 5⟩).players 0).folded
        = true := by
  decide

theorem claim_C3_witness :
    (simpleState.player_at_hand_index < simpleState.players.length)
    ∧ (0 < simpleState.current_player.money)
    ∧ ((Action.mk ActionType.CALL 5).amount = simpleState.current_player.money)
    ∧ ((Action.mk ActionType.CALL 5).type ≠ ActionType.FOLD)
    ∧ (validateAction simpleState ⟨ActionType.CALL, 5⟩
        = ⟨ActionType.ALL_IN, simpleState.current_player.money⟩
      ∧ (playerAt (implement_player_action simpleState ⟨ActionType.CALL, 5⟩).players
          simpleState.player_at_hand_index).money = 0
      ∧ (playerAt (implement_player_action simpleState ⟨ActionType.CALL, 5⟩).players
          simpleState.player_at_hand_index).bet
          = simpleState.current_player.bet + simpleState.current_player.money
      ∧ (playerAt (implement_player_action simpleState ⟨ActionType.CALL, 5⟩).players
          simpleState.player_at_hand_index).all_in = true) :=
  ⟨by decide, by decide, by decide, by decide,
    claim_C3_all_in_normalization simpleState ⟨ActionType.CALL, 5⟩
      (by decide) (by decide) (by decide) (by decide)⟩

/-! ### Claims about the information-restricted snapshot -/

/-- C8: the snapshot handed to a strategy is `obscure_for_player` of the
authoritative state: a value copy (the Python `copy.deepcopy`, so strategy-side
mutation cannot reach the engine's state) in which every player other than
the acting one has an empty private-card list, the acting player's entry and
all remaining fields being identical. -/
theorem claim_C8_obscured_snapshot (s : TableState) (i j : Nat)
    (hj : j < s.players.length) :
    (s.obscure_for_player i).round = s.round
    ∧ (s.obscure_for_player i).cards = s.cards
    ∧ (s.obscure_for_player i).players.length = s.players.length
    ∧ playerAt (s.obscure_for_player i).players j
        = (if j = i then playerAt s.players j
           else { playerAt s.players j with cards := [] }) := by
  refine ⟨rfl, rfl, ?_, ?_⟩
  · simpa [TableState.obscure_for_player, mapIdxPlayers] using mapIdxAux_length _ s.players 0
  · rw [show (s.obscure_for_player i).players
        = mapIdxPlayers (fun idx p => if idx ≠ i then { p with cards := [] } else p) s.players
      from rfl]
    rw [playerAt_mapIdxPlayers _ _ _ hj]
    by_cases hji : j = i <;> simp [hji]

theorem claim_C8_witness :
    (1 < simpleState.players.length)
    ∧ ((simpleState.obscure_for_player 0).round = simpleState.round
      ∧ (simpleState.obscure_for_player 0).cards = simpleState.cards
      ∧ (simpleState.obscure_for_player 0).players.length = simpleState.players.length
      ∧ playerAt (simpleState.obscure_for_player 0).players 1
          = (if 1 = 0 then playerAt simpleState.players 1
             else { playerAt simpleState.players 1 with cards := [] })) :=
  ⟨by decide, claim_C8_obscured_snapshot simpleState 0 1 (by decide)⟩

theorem foldl_best_ge_init (c : List Card) (cs : List (List Card)) :
    (evaluate_score c).2
      ≤ (evaluate_score (cs.foldl (fun acc x =>
          if (evaluate_score acc).2 < (evaluate_score x).2 then x else acc) c)).2 := by
  induction cs generalizing c with
  | nil => exact le_refl _
  | cons x xs ih =>
    simp only [List.foldl_cons]
    exact le_trans (by split_ifs with h <;> omega) (ih _)

theorem foldl_best_ge_mem (c x : List Card) (cs : List (List Card)) (hx : x ∈ cs) :
    (evaluate_score x).2
      ≤ (evaluate_score (cs.foldl (fun acc y =>
          if (evaluate_score acc).2 < (evaluate_score y).2 then y else acc) c)).2 := by
  induction cs generalizing c with
  | nil => simp at hx
  | cons y ys ih =>
    simp only [List.foldl_cons]
    rcases List.mem_cons.mp hx with rfl | hmem
    · exact le_trans (by split_ifs with h <;> omega) (foldl_best_ge_init _ ys)
    · exact ih _ hmem

/-- C7: for a collection of 5 to 7 cards, the hand returned by `best` scores
at least as high as every 5-card subset of the collection. -/
theorem claim_C7_best_dominates_subsets (cards : List Card)
    (_h5 : 5 ≤ cards.length) (_h7 : cards.length ≤ 7)
    (sub : List Card) (hsub : sub ∈ List.sublistsLen 5 cards) :
    (evaluate_score sub).2 ≤ (evaluate_score (best cards)).2 := by
  cases hL : List.sublistsLen 5 cards with
  | nil => rw [hL] at hsub; simp at hsub
  | cons c cs =>
    have hbest : best cards = cs.foldl (fun acc x =>
        if (evaluate_score acc).2 < (evaluate_score x).2 then x else acc) c := by
      unfold best
      rw [hL]
    rw [hL] at hsub
    rw [hbest]
    rcases List.mem_cons.mp hsub with rfl | hmem
    · exact foldl_best_ge_init _ cs
    · exact foldl_best_ge_mem _ _ cs hmem

theorem claim_C7_witness :
    (5 ≤ ([⟨.c, .TWO⟩, ⟨.c, .THREE⟩, ⟨.c, .FOUR⟩, ⟨.c, .FIVE⟩, ⟨.c, .SIX⟩, ⟨.h, .SEVEN⟩] : List Card).length)
    ∧ (([⟨.c, .TWO⟩, ⟨.c, .THREE⟩, ⟨.c, .FOUR⟩, ⟨.c, .FIVE⟩, ⟨.c, .SIX⟩, ⟨.h, .SEVEN⟩] : List Card).length ≤ 7)
    ∧ ([⟨.c, .TWO⟩, ⟨.c, .THREE⟩, ⟨.c, .FOUR⟩, ⟨.c, .FIVE⟩, ⟨.c, .SIX⟩] : List Card)
        ∈ List.sublistsLen 5 [⟨.c, .TWO⟩, ⟨.c, .THREE⟩, ⟨.c, .FOUR⟩, ⟨.c, .FIVE⟩, ⟨.c, .SIX⟩, ⟨.h, .SEVEN⟩]
    ∧ (evaluate_score [⟨.c, .TWO⟩, ⟨.c, .THREE⟩, ⟨.c, .FOUR⟩, ⟨.c, .FIVE⟩, ⟨.c, .SIX⟩]).2
        ≤ (evaluate_score (best [⟨.c, .TWO⟩, ⟨.c, .THREE⟩, ⟨.c, .FOUR⟩, ⟨.c, .FIVE⟩, ⟨.c, .SIX⟩, ⟨.h, .SEVEN⟩])).2 :=
  ⟨by decide, by decide, by decide,
    claim_C7_best_dominates_subsets _ (by decide) (by decide) _ (by decide)⟩


theorem playerAt_execIncrementButtons_money (s : TableSt) (i : Nat)
    (hi : i < s.state.players.length) :
    (playerAt (execIncrementButtons s).state.players i).money
      = (playerAt s.state.players i).money := by
  unfold execIncrementButtons
  rw [playerAt_map _ _ _ hi]

/-- C5: when at least two contenders reach the payout and the tied winners
are the maximum-score contenders, each winner's money grows by exactly
`pot // n` (`Int.fdiv`, n the number of tied winners) and every other
player's money is unchanged — in particular nobody receives `pot mod n`. -/
theorem claim_C5_split_pot (s : TableSt)
    (h2 : 2 ≤ (remainingPlayers s.state).length)
    (i : Nat) (hi : i < s.state.players.length) :
    (playerAt (execDetermineWinner s).1.state.players i).money
      = (playerAt s.state.players i).money
        + (if (winnerIdxOf s.state).contains i
           then (s.state.pot).fdiv ((winnerIdxOf s.state).length) else 0) := by
  have hne : ((remainingPlayers s.state).length == 1) = false := by
    simp only [beq_eq_false_iff_ne, ne_eq]
    omega
  have hpay : (execDetermineWinner s).1.state.players
      = (mapIdxPlayers (fun idx p =>
          if (winnerIdxOf s.state).contains idx
          then { p with money := p.money + (s.state.pot).fdiv ((winnerIdxOf s.state).length) }
          else p) s.state.players).map (fun p =>
            { p with bet := 0, folded := false, all_in := false, cards := [] }) := by
    simp only [execDetermineWinner, hne, Bool.false_eq_true, if_false]
    rfl
  have hlen : i < (mapIdxPlayers (fun idx p =>
      if (winnerIdxOf s.state).contains idx
      then { p with money := p.money + (s.state.pot).fdiv ((winnerIdxOf s.state).length) }
      else p) s.state.players).length := by
    unfold mapIdxPlayers
    rw [mapIdxAux_length]
    exact hi
  rw [hpay, playerAt_map _ _ _ hlen,
    playerAt_mapIdxPlayers _ _ _ hi]
  by_cases hm : i ∈ winnerIdxOf s.state <;> simp [hm]

theorem claim_C5_witness :
    (2 ≤ (remainingPlayers c5Table.state).length)
    ∧ (0 : Nat) < c5Table.state.players.length
    ∧ (playerAt (execDetermineWinner c5Table).1.state.players 0).money = 2
    ∧ (playerAt (execDetermineWinner c5Table).1.state.players 1).money = 2
    ∧ c5Table.state.pot = 5 := by
  refine ⟨by decide, by decide, ?_, ?_, by decide⟩
  · rw [claim_C5_split_pot c5Table (by decide) 0 (by decide)]
    decide
  · rw [claim_C5_split_pot c5Table (by decide) 1 (by decide)]
    decide

theorem Face.value_le (f : Face) : f.value ≤ 14 := by cases f <;> decide

theorem facesOf_le (c : List Card) : ∀ x ∈ facesOf c, x ≤ 14 := by
  intro x hx
  unfold facesOf sortDesc at hx
  rw [(List.perm_insertionSort _ _).mem_iff] at hx
  obtain ⟨card, _, rfl⟩ := List.mem_map.1 hx
  exact Face.value_le _

theorem getD_nat_le {l : List Nat} (h : ∀ x ∈ l, x ≤ 14) (i : Nat) : l.getD i 0 ≤ 14 := by
  induction l generalizing i with
  | nil => simp [List.getD]
  | cons x xs ih =>
    cases i with
    | zero => exact h x (by simp)
    | succ n => simpa using ih (fun y hy => h y (List.mem_cons_of_mem x hy)) n

theorem getD_pair_fst_le {l : List (Nat × Nat)} (h : ∀ p ∈ l, p.1 ≤ 14) (i : Nat) :
    (l.getD i (0, 0)).1 ≤ 14 := by
  induction l generalizing i with
  | nil => simp [List.getD]
  | cons x xs ih =>
    cases i with
    | zero => exact h x (by simp)
    | succ n => simpa using ih (fun y hy => h y (List.mem_cons_of_mem x hy)) n

theorem listMax_le {l : List Nat} (h : ∀ x ∈ l, x ≤ 14) : listMax l ≤ 14 := by
  induction l with
  | nil => simp [listMax]
  | cons x xs ih =>
    simp only [listMax, List.foldr_cons]
    exact max_le (h x (by simp)) (ih fun y hy => h y (List.mem_cons_of_mem x hy))

theorem faceCountsOf_fst_le {fs : List Nat} (h : ∀ x ∈ fs, x ≤ 14) :
    ∀ p ∈ faceCountsOf fs, p.1 ≤ 14 := by
  intro p hp
  unfold faceCountsOf at hp
  rw [(List.perm_insertionSort _ _).mem_iff] at hp
  obtain ⟨f, hf, rfl⟩ := List.mem_map.1 hp
  exact h f (List.mem_dedup.1 hf)

theorem faceCountAt_fst_le (c : List Card) (i : Nat) : (faceCountAt c i).1 ≤ 14 :=
  getD_pair_fst_le (faceCountsOf_fst_le (facesOf_le c)) i

theorem uniqueFacesOf_le (c : List Card) : ∀ x ∈ uniqueFacesOf c, x ≤ 14 := by
  intro x hx
  unfold uniqueFacesOf sortDesc at hx
  rw [(List.perm_insertionSort _ _).mem_iff] at hx
  exact facesOf_le c x (List.mem_dedup.1 hx)

theorem straightHigh_le (c : List Card) : straightHigh c ≤ 14 := by
  unfold straightHigh
  split_ifs
  · omega
  · exact listMax_le (uniqueFacesOf_le c)

theorem kickersOf_getD_le (c : List Card) (e i : Nat) : (kickersOf c e).getD i 0 ≤ 14 := by
  refine getD_nat_le (fun x hx => ?_) i
  unfold kickersOf sortDesc at hx
  rw [(List.perm_insertionSort _ _).mem_iff] at hx
  exact facesOf_le c x (List.mem_of_mem_filter hx)

theorem twoPairKicker_le (c : List Card) (hp lp : Nat) : twoPairKicker c hp lp ≤ 14 := by
  unfold twoPairKicker
  exact getD_nat_le (fun x hx => facesOf_le c x (List.mem_of_mem_filter hx)) 0

set_option maxHeartbeats 1600000 in
theorem evaluate_score_bounds (c : List Card) :
    ∀ t sc, evaluate_score c = (t, sc)
      → t.value * 1000000 ≤ sc ∧ sc < (t.value + 1) * 1000000 := by
  intro t sc heq
  have h0 := faceCountAt_fst_le c 0
  have h1 := faceCountAt_fst_le c 1
  have hmx : max (faceCountAt c 0).1 (faceCountAt c 1).1 ≤ 14 := max_le h0 h1
  have hmn : min (faceCountAt c 0).1 (faceCountAt c 1).1 ≤ 14 :=
    le_trans (min_le_left _ _) h0
  have hf0 := getD_nat_le (facesOf_le c) 0
  have hf1 := getD_nat_le (facesOf_le c) 1
  have hf2 := getD_nat_le (facesOf_le c) 2
  have hf3 := getD_nat_le (facesOf_le c) 3
  have hf4 := getD_nat_le (facesOf_le c) 4
  have hmaxf : listMax (facesOf c) ≤ 14 := listMax_le (facesOf_le c)
  have hsh := straightHigh_le c
  have hk0 := kickersOf_getD_le c (faceCountAt c 0).1 0
  have hk1 := kickersOf_getD_le c (faceCountAt c 0).1 1
  have hk2 := kickersOf_getD_le c (faceCountAt c 0).1 2
  have htp := twoPairKicker_le c (max (faceCountAt c 0).1 (faceCountAt c 1).1)
    (min (faceCountAt c 0).1 (faceCountAt c 1).1)
  unfold evaluate_score at heq
  split_ifs at heq <;>
    (injection heq with hA hB; subst hA; subst hB) <;>
      dsimp only [Tier.value] <;> constructor <;> omega

/-- C2: across tiers the evaluator's scores are strictly ordered: any 5-card
hand of a higher tier scores strictly above any 5-card hand of a lower tier,
since every tier's score lies in [tier*1000000, tier*1000000 + 1000000). -/
theorem claim_C2_tier_separation (c1 c2 : List Card)
    (_h1 : c1.length = 5) (_h2 : c2.length = 5)
    (ht : (evaluate_score c2).1.value < (evaluate_score c1).1.value) :
    (evaluate_score c2).2 < (evaluate_score c1).2 := by
  have b1 := evaluate_score_bounds c1 (evaluate_score c1).1 (evaluate_score c1).2 rfl
  have b2 := evaluate_score_bounds c2 (evaluate_score c2).1 (evaluate_score c2).2 rfl
  omega

theorem claim_C2_witness :
    (([⟨.h, .TEN⟩, ⟨.h, .JACK⟩, ⟨.h, .QUEEN⟩, ⟨.h, .KING⟩, ⟨.h, .ACE⟩] : List Card).length = 5)
    ∧ (([⟨.c, .TWO⟩, ⟨.s, .SEVEN⟩, ⟨.h, .NINE⟩, ⟨.d, .JACK⟩, ⟨.c, .ACE⟩] : List Card).length = 5)
    ∧ (evaluate_score [⟨.c, .TWO⟩, ⟨.s, .SEVEN⟩, ⟨.h, .NINE⟩, ⟨.d, .JACK⟩, ⟨.c, .ACE⟩]).1.value
        < (evaluate_score [⟨.h, .TEN⟩, ⟨.h, .JACK⟩, ⟨.h, .QUEEN⟩, ⟨.h, .KING⟩, ⟨.h, .ACE⟩]).1.value
    ∧ (evaluate_score [⟨.c, .TWO⟩, ⟨.s, .SEVEN⟩, ⟨.h, .NINE⟩, ⟨.d, .JACK⟩, ⟨.c, .ACE⟩]).2
        < (evaluate_score [⟨.h, .TEN⟩, ⟨.h, .JACK⟩, ⟨.h, .QUEEN⟩, ⟨.h, .KING⟩, ⟨.h, .ACE⟩]).2 :=
  ⟨by decide, by decide, by decide,
    claim_C2_tier_separation _ _ (by decide) (by decide) (by decide)⟩

theorem execDetermineWinner_chain (s : TableSt) :
    (execDetermineWinner s).2 = [Event.DETERMINE_WINNER, Event.INCREMENT_BUTTONS] := by
  unfold execDetermineWinner
  dsimp only
  split_ifs <;> rfl

theorem msum_if_modifyAt (cond : Prop) [Decidable cond] (l : List Player) (i : Nat)
    (f : Player → Player) (hf : ∀ p, (f p).money + (f p).bet = p.money + p.bet) :
    msum (if cond then modifyAt l i f else l) = msum l := by
  split_ifs
  · exact msum_modifyAt l i f hf
  · rfl

theorem msum_modifyAt_cards (l : List Player) (i : Nat) (cd : List Card) :
    msum (modifyAt l i (fun p => { p with cards := cd })) = msum l :=
  msum_modifyAt _ _ _ (fun _ => rfl)

theorem msum_dealBlinds (st : TableState) : msum (dealBlinds st) = msum st.players := by
  unfold dealBlinds
  dsimp only
  rw [msum_if_modifyAt _ _ _ _ (fun p => by unfold postBlind; dsimp only; ring)]
  rw [msum_if_modifyAt _ _ _ _ (fun p => by unfold postBlind; dsimp only; ring)]

theorem msum_implement (st : TableState) (a : Action) :
    msum (implement_player_action st a).players = msum st.players := by
  have h : (implement_player_action st a).players
      = modifyAt st.players st.player_at_hand_index (fun p =>
          if (validateAction st a).type = ActionType.FOLD then
            { p with bet := p.bet + (validateAction st a).amount,
                     money := p.money - (validateAction st a).amount, folded := true }
          else if (validateAction st a).type = ActionType.ALL_IN then
            { p with bet := p.bet + (validateAction st a).amount,
                     money := p.money - (validateAction st a).amount, all_in := true }
          else
            { p with bet := p.bet + (validateAction st a).amount,
                     money := p.money - (validateAction st a).amount }) := rfl
  rw [h]
  apply msum_modifyAt
  intro p
  split_ifs <;> dsimp only <;> ring

theorem execNewRound_players (s : TableSt) (nd : List Card) :
    (execNewRound s nd).state.players = s.state.players := by
  unfold execNewRound
  dsimp only
  split_ifs <;> rfl

theorem dealCardToTable_players {s s1 : TableSt} {n b : Nat}
    (h : dealCardToTable s n b = some s1) : s1.state.players = s.state.players := by
  unfold dealCardToTable at h
  rcases h1 : sampleN s.deck b with _ | ⟨burned, deck1⟩ <;> rw [h1] at h <;> try dsimp only at h
  · exact absurd h (by simp)
  · rcases h2 : sampleN deck1 n with _ | ⟨cs, deck2⟩ <;> rw [h2] at h <;> try dsimp only at h
    · exact absurd h (by simp)
    · simp only [Option.some.injEq] at h
      subst h
      rfl

theorem execIncreaseRound_players {s s1 : TableSt}
    (h : execIncreaseRound s = some s1) : s1.state.players = s.state.players := by
  unfold execIncreaseRound at h
  cases hr : s.state.round <;> rw [hr] at h <;> try dsimp only at h
  case PREFLOP =>
    rcases hd : dealCardToTable s 3 1 with _ | s2 <;> rw [hd] at h
    · exact absurd h (by simp)
    · simp only [Option.map_some', Option.some.injEq] at h
      subst h
      dsimp only
      exact dealCardToTable_players hd
  case FLOP =>
    rcases hd : dealCardToTable s 1 1 with _ | s2 <;> rw [hd] at h
    · exact absurd h (by simp)
    · simp only [Option.map_some', Option.some.injEq] at h
      subst h
      dsimp only
      exact dealCardToTable_players hd
  case RIVER =>
    rcases hd : dealCardToTable s 1 1 with _ | s2 <;> rw [hd] at h
    · exact absurd h (by simp)
    · simp only [Option.map_some', Option.some.injEq] at h
      subst h
      dsimp only
      exact dealCardToTable_players hd
  case TURN =>
    simp only [Option.some.injEq] at h
    subst h
    rfl

theorem msum_execDealPlayerCard {s s1 : TableSt}
    (h : execDealPlayerCard s = some s1) :
    msum s1.state.players = msum s.state.players := by
  unfold execDealPlayerCard at h
  dsimp only at h
  split_ifs at h
  all_goals try (simp only [Option.some.injEq] at h; subst h; rfl)
  all_goals
    rcases h1 : Deck.sample s.deck with _ | ⟨c1, deck1⟩ <;> rw [h1] at h <;> try dsimp only at h
  all_goals try exact Option.noConfusion h
  all_goals
    rcases h2 : Deck.sample deck1 with _ | ⟨c2, deck2⟩ <;> rw [h2] at h <;> try dsimp only at h
  all_goals try exact Option.noConfusion h
  all_goals simp only [Option.some.injEq] at h
  all_goals (subst h; dsimp only; simp only [msum_modifyAt_cards, msum_dealBlinds])


theorem msum_queryImplementedState (strat : TableState → Player → Action) (s : TableSt) :
    msum (queryImplementedState strat s).state.players = msum s.state.players := by
  unfold queryImplementedState
  dsimp only
  exact msum_implement _ _

theorem msum_execQueryPlayer {strat : TableState → Player → Action} {s s1 : TableSt}
    {chain : List Event}
    (h : execQueryPlayer strat s = some (s1, chain))
    (hnw : Event.DETERMINE_WINNER ∉ chain) :
    msum s1.state.players = msum s.state.players := by
  unfold execQueryPlayer at h
  dsimp only at h
  split_ifs at h with h1 h2 h3 h4
  · simp only [Option.some.injEq, Prod.mk.injEq] at h
    obtain ⟨rfl, rfl⟩ := h
    rfl
  · simp only [Option.some.injEq, Prod.mk.injEq] at h
    obtain ⟨rfl, rfl⟩ := h
    rfl
  · simp only [Option.some.injEq, Prod.mk.injEq] at h
    obtain ⟨rfl, rfl⟩ := h
    rw [execDetermineWinner_chain] at hnw
    simp at hnw
  · split at h
    · exact Option.noConfusion h
    · rename_i s2 hi
      simp only [Option.some.injEq, Prod.mk.injEq] at h
      obtain ⟨rfl, rfl⟩ := h
      rw [execIncreaseRound_players hi]
      exact msum_queryImplementedState _ _
  · simp only [Option.some.injEq, Prod.mk.injEq] at h
    obtain ⟨rfl, rfl⟩ := h
    exact msum_queryImplementedState _ _

theorem execShowdown_chain_mem {s s1 : TableSt} {chain : List Event}
    (h : execShowdown s = some (s1, chain)) :
    Event.DETERMINE_WINNER ∈ chain := by
  unfold execShowdown at h
  split at h
  · exact Option.noConfusion h
  · split at h
    · exact Option.noConfusion h
    · split at h
      · exact Option.noConfusion h
      · simp only [Option.some.injEq, Prod.mk.injEq] at h
        obtain ⟨rfl, rfl⟩ := h
        rw [execDetermineWinner_chain]
        simp

/-- C4: a `step` whose executed transition chain avoids DETERMINE_WINNER
leaves the total of every player's money plus standing bet unchanged: blinds
and applied actions only move chips from a player's money to that same
player's bet, and community dealing never touches chips. -/
theorem claim_C4_chip_conservation (strat : TableState → Player → Action)
    (nd : List Card) (s s1 : TableSt) (chain : List Event)
    (hq : s.q.schedulable)
    (hstep : step strat nd s = some (s1, chain))
    (hnw : Event.DETERMINE_WINNER ∉ chain) :
    msum s1.state.players = msum s.state.players := by
  unfold step at hstep
  rcases hq with h | h | h | h | h | h | h
  · rw [h, if_neg (by decide : ¬ (Event.NEW_ROUND = Event.DONE))] at hstep
    simp only [execute, Option.some.injEq, Prod.mk.injEq] at hstep
    obtain ⟨rfl, rfl⟩ := hstep
    rw [execNewRound_players]
  · rw [h, if_neg (by decide : ¬ (Event.DEAL_PLAYER_CARD = Event.DONE))] at hstep
    simp only [execute] at hstep
    rcases hd : execDealPlayerCard s with _ | s2 <;> rw [hd] at hstep
    · exact Option.noConfusion hstep
    · simp only [Option.map_some', Option.some.injEq, Prod.mk.injEq] at hstep
      obtain ⟨rfl, rfl⟩ := hstep
      exact msum_execDealPlayerCard hd
  · rw [h, if_neg (by decide : ¬ (Event.START_BETTING_ROUND = Event.DONE))] at hstep
    simp only [execute, Option.some.injEq, Prod.mk.injEq] at hstep
    obtain ⟨rfl, rfl⟩ := hstep
    rfl
  · rw [h, if_neg (by decide : ¬ (Event.QUERY_PLAYER = Event.DONE))] at hstep
    simp only [execute] at hstep
    exact msum_execQueryPlayer hstep hnw
  · rw [h, if_neg (by decide : ¬ (Event.SHOWDOWN = Event.DONE))] at hstep
    simp only [execute] at hstep
    exact absurd (execShowdown_chain_mem hstep) hnw
  · rw [h, if_neg (by decide : ¬ (Event.DETERMINE_WINNER = Event.DONE))] at hstep
    simp only [execute, Option.some.injEq] at hstep
    rw [Prod.ext_iff] at hstep
    dsimp only at hstep
    rw [← hstep.2, execDetermineWinner_chain] at hnw
    simp at hnw
  · rw [h, if_pos rfl] at hstep
    simp only [Option.some.injEq, Prod.mk.injEq] at hstep
    obtain ⟨rfl, rfl⟩ := hstep
    rfl

theorem claim_C4_witness :
    Event.schedulable simpleTable.q
    ∧ step strat0 fullDeck simpleTable
        = some (execNewRound simpleTable fullDeck, [Event.NEW_ROUND])
    ∧ Event.DETERMINE_WINNER ∉ [Event.NEW_ROUND]
    ∧ msum (execNewRound simpleTable fullDeck).state.players
        = msum simpleTable.state.players :=
  ⟨Or.inl rfl, rfl, by decide,
    claim_C4_chip_conservation strat0 fullDeck simpleTable
      (execNewRound simpleTable fullDeck) [Event.NEW_ROUND] (Or.inl rfl) rfl (by decide)⟩

theorem sample_of_length {deck : List Card} {k : Nat} (h : deck.length = k + 1) :
    ∃ c d, Deck.sample deck = some (c, d) ∧ d.length = k := by
  cases hd : deck.getLast? with
  | none =>
    rw [List.getLast?_eq_none_iff] at hd
    subst hd
    simp at h
  | some c =>
    refine ⟨c, deck.dropLast, ?_, by rw [List.length_dropLast]; omega⟩
    unfold Deck.sample
    rw [hd]

theorem sampleN_of_le {n : Nat} : ∀ {deck : List Card}, n ≤ deck.length →
    ∃ cs d, sampleN deck n = some (cs, d) ∧ d.length = deck.length - n := by
  induction n with
  | zero => exact fun h => ⟨[], _, rfl, by omega⟩
  | succ m ih =>
    intro deck h
    obtain ⟨c, d1, hs, hl⟩ := @sample_of_length deck (deck.length - 1) (by omega)
    obtain ⟨cs, d2, hsn, hl2⟩ := @ih d1 (by omega)
    refine ⟨c :: cs, d2, ?_, by omega⟩
    unfold sampleN
    rw [hs]
    dsimp only
    rw [hsn]

theorem dealCardToTable_deal {s : TableSt} {n b : Nat}
    (h : n + b ≤ s.deck.length) :
    ∃ cs2 d2, dealCardToTable s n b
        = some { s with
            deck := d2,
            state := { s.state with cards := s.state.cards ++ cs2 } }
      ∧ d2.length + (n + b) = s.deck.length := by
  obtain ⟨cs1, d1, h1, hl1⟩ := @sampleN_of_le b s.deck (by omega)
  obtain ⟨cs2, d2, h2, hl2⟩ := @sampleN_of_le n d1 (by omega)
  refine ⟨cs2, d2, ?_, by omega⟩
  unfold dealCardToTable
  rw [h1]
  dsimp only
  rw [h2]

theorem execIncreaseRound_inv {s : TableSt}
    (hn : s.state.players.length ≤ 22) (hd : DeckInv s) :
    ∃ s1, execIncreaseRound s = some s1
      ∧ DeckInv s1
      ∧ s1.state.players = s.state.players
      ∧ s1.state.player_at_hand_index = s.state.player_at_hand_index
      ∧ (s1.q = Event.START_BETTING_ROUND ∨ s1.q = Event.SHOWDOWN) := by
  have hcd : cardsDealt s.state.players ≤ s.state.players.length :=
    List.length_filter_le _ _
  unfold DeckInv at hd
  cases hr : s.state.round
  case PREFLOP =>
    rw [hr] at hd
    simp only [consumed] at hd
    obtain ⟨cs2, d2, hdeal, hlen⟩ := dealCardToTable_deal (s := s) (n := 3) (b := 1) (by omega)
    refine ⟨{ s with
        deck := d2,
        state := { s.state with cards := s.state.cards ++ cs2, round := Round.FLOP },
        q := Event.START_BETTING_ROUND }, ?_, ?_, rfl, rfl, Or.inl rfl⟩
    · unfold execIncreaseRound
      rw [hr, hdeal]
      rfl
    · unfold DeckInv
      dsimp only
      simp only [consumed]
      omega
  case FLOP =>
    rw [hr] at hd
    simp only [consumed] at hd
    obtain ⟨cs2, d2, hdeal, hlen⟩ := dealCardToTable_deal (s := s) (n := 1) (b := 1) (by omega)
    refine ⟨{ s with
        deck := d2,
        state := { s.state with cards := s.state.cards ++ cs2, round := Round.RIVER },
        q := Event.START_BETTING_ROUND }, ?_, ?_, rfl, rfl, Or.inl rfl⟩
    · unfold execIncreaseRound
      rw [hr, hdeal]
      rfl
    · unfold DeckInv
      dsimp only
      simp only [consumed]
      omega
  case RIVER =>
    rw [hr] at hd
    simp only [consumed] at hd
    obtain ⟨cs2, d2, hdeal, hlen⟩ := dealCardToTable_deal (s := s) (n := 1) (b := 1) (by omega)
    refine ⟨{ s with
        deck := d2,
        state := { s.state with cards := s.state.cards ++ cs2, round := Round.TURN },
        q := Event.START_BETTING_ROUND }, ?_, ?_, rfl, rfl, Or.inl rfl⟩
    · unfold execIncreaseRound
      rw [hr, hdeal]
      rfl
    · unfold DeckInv
      dsimp only
      simp only [consumed]
      omega
  case TURN =>
    refine ⟨{ s with q := Event.SHOWDOWN }, ?_, ?_, rfl, rfl, Or.inr rfl⟩
    · unfold execIncreaseRound
      rw [hr]
    · exact hd

theorem fillOnce_inv {s : TableSt}
    (hn : s.state.players.length ≤ 22) (hd : DeckInv s) :
    ∃ s1 c, fillOnce s = some (s1, c) ∧ DeckInv s1
      ∧ s1.state.players = s.state.players
      ∧ s1.state.player_at_hand_index = s.state.player_at_hand_index := by
  unfold fillOnce
  split_ifs with ht
  · exact ⟨s, [], rfl, hd, rfl, rfl⟩
  · obtain ⟨s1, he, hdi, hp, hidx, _⟩ := execIncreaseRound_inv hn hd
    rw [he]
    exact ⟨s1, [Event.INCREASE_ROUND], rfl, hdi, hp, hidx⟩


theorem searchNextPlayer_lt (players : List Player) (i : Nat)
    (h : 1 ≤ players.length) :
    searchNextPlayer players i < players.length := by
  unfold searchNextPlayer
  dsimp only
  split
  · exact Nat.mod_lt _ (by omega)
  · exact Nat.mod_lt _ (by omega)

theorem mapIdxPlayers_length (f : Nat → Player → Player) (l : List Player) :
    (mapIdxPlayers f l).length = l.length := mapIdxAux_length f l 0

theorem cardsDealt_cons (p : Player) (ps : List Player) :
    cardsDealt (p :: ps) = (if p.cards.length = 0 then 0 else 1) + cardsDealt ps := by
  by_cases hp : p.cards.length = 0 <;>
    simp [cardsDealt, List.filter_cons, hp] <;> omega

theorem cardsDealt_eq_zero {l : List Player} (h : ∀ p ∈ l, p.cards = []) :
    cardsDealt l = 0 := by
  unfold cardsDealt
  have hnil : l.filter (fun p => !(p.cards.length == 0)) = [] := by
    rw [List.filter_eq_nil_iff]
    intro p hp
    simp [h p hp]
  rw [hnil]
  rfl

theorem cardsDealt_lt {l : List Player} {i : Nat} (hi : i < l.length)
    (hc : ((l.getD i default).cards.length == 0) = true) :
    cardsDealt l < l.length := by
  unfold cardsDealt
  rw [List.length_filter_lt_length_iff_exists]
  refine ⟨l.getD i default, ?_, by simpa using hc⟩
  rw [List.getD_eq_getElem l default hi]
  exact List.getElem_mem hi

theorem cardsDealt_modifyAt_of_cards_eq (l : List Player) (i : Nat) (f : Player → Player)
    (hf : ∀ p, (f p).cards = p.cards) :
    cardsDealt (modifyAt l i f) = cardsDealt l := by
  induction l generalizing i with
  | nil => rfl
  | cons p ps ih =>
    cases i with
    | zero => simp only [modifyAt, cardsDealt_cons, hf p]
    | succ n => simp only [modifyAt, cardsDealt_cons, ih n]

theorem cardsDealt_modifyAt_set {l : List Player} {i : Nat} (hi : i < l.length)
    (hc : (l.getD i default).cards.length = 0) (c1 c2 : Card) :
    cardsDealt (modifyAt l i (fun p => { p with cards := [c1, c2] }))
      = cardsDealt l + 1 := by
  induction l generalizing i with
  | nil => simp at hi
  | cons p ps ih =>
    cases i with
    | zero =>
      have hp : p.cards.length = 0 := by simpa using hc
      simp only [modifyAt, cardsDealt_cons]
      simp [hp]
      omega
    | succ n =>
      simp only [modifyAt, cardsDealt_cons]
      rw [ih (by simpa using hi) (by simpa using hc)]
      omega

theorem modifyAt_getD_cards (l : List Player) (i : Nat) (f : Player → Player)
    (hf : ∀ p, (f p).cards = p.cards) :
    ((modifyAt l i f).getD i default).cards = ((l.getD i default).cards) := by
  induction l generalizing i with
  | nil => rfl
  | cons p ps ih =>
    cases i with
    | zero => exact hf p
    | succ n => simpa [modifyAt] using ih n

theorem postBlind_cards (amount : Int) (p : Player) :
    (postBlind amount p).cards = p.cards := rfl

theorem dealBlinds_length (st : TableState) :
    (dealBlinds st).length = st.players.length := by
  unfold dealBlinds
  dsimp only
  split_ifs <;> simp [modifyAt_length]

theorem cardsDealt_dealBlinds (st : TableState) :
    cardsDealt (dealBlinds st) = cardsDealt st.players := by
  unfold dealBlinds
  dsimp only
  split_ifs
  · rw [cardsDealt_modifyAt_of_cards_eq _ _ _ (postBlind_cards _),
        cardsDealt_modifyAt_of_cards_eq _ _ _ (postBlind_cards _)]
  · rw [cardsDealt_modifyAt_of_cards_eq _ _ _ (postBlind_cards _)]
  · rw [cardsDealt_modifyAt_of_cards_eq _ _ _ (postBlind_cards _)]
  · rfl

theorem dealBlinds_getD_cards (st : TableState) :
    (((dealBlinds st).getD st.player_at_hand_index default).cards)
      = ((st.players.getD st.player_at_hand_index default).cards) := by
  unfold dealBlinds
  dsimp only
  split_ifs
  · rw [modifyAt_getD_cards _ _ _ (postBlind_cards _),
        modifyAt_getD_cards _ _ _ (postBlind_cards _)]
  · rw [modifyAt_getD_cards _ _ _ (postBlind_cards _)]
  · rw [modifyAt_getD_cards _ _ _ (postBlind_cards _)]
  · rfl

theorem implement_players_eq (st : TableState) (a : Action) :
    (implement_player_action st a).players
      = modifyAt st.players st.player_at_hand_index (fun p =>
          if (validateAction st a).type = ActionType.FOLD then
            { p with bet := p.bet + (validateAction st a).amount,
                     money := p.money - (validateAction st a).amount, folded := true }
          else if (validateAction st a).type = ActionType.ALL_IN then
            { p with bet := p.bet + (validateAction st a).amount,
                     money := p.money - (validateAction st a).amount, all_in := true }
          else
            { p with bet := p.bet + (validateAction st a).amount,
                     money := p.money - (validateAction st a).amount }) := rfl

theorem implement_length (st : TableState) (a : Action) :
    (implement_player_action st a).players.length = st.players.length := by
  rw [implement_players_eq]
  exact modifyAt_length _ _ _

theorem cardsDealt_implement (st : TableState) (a : Action) :
    cardsDealt (implement_player_action st a).players = cardsDealt st.players := by
  rw [implement_players_eq]
  apply cardsDealt_modifyAt_of_cards_eq
  intro p
  split_ifs <;> rfl

theorem execIncrementButtons_inv {s : TableSt}
    (h1 : 1 ≤ s.state.players.length) (h22 : s.state.players.length ≤ 22) :
    Inv (execIncrementButtons s) := by
  unfold execIncrementButtons Inv
  dsimp only
  refine ⟨by simpa using h1, by simpa using h22, ?_, Or.inl rfl, ?_, ?_, ?_⟩
  · exact searchNextPlayer_lt _ _ (by simpa using h1)
  · intro _ p hp
    obtain ⟨q, hq, rfl⟩ := List.mem_map.1 hp
    rfl
  · intro hcontra
    exact absurd hcontra (by decide)
  · intro hcontra
    rcases hcontra with hx | hx | hx | hx | hx <;> exact absurd hx (by decide)

theorem execDetermineWinner_inv {s : TableSt}
    (h1 : 1 ≤ s.state.players.length) (h22 : s.state.players.length ≤ 22) :
    Inv (execDetermineWinner s).1 := by
  unfold execDetermineWinner
  dsimp only
  split_ifs
  · exact execIncrementButtons_inv
      (by dsimp only; rw [modifyAt_length]; exact h1)
      (by dsimp only; rw [modifyAt_length]; exact h22)
  · exact execIncrementButtons_inv
      (by dsimp only; rw [mapIdxPlayers_length]; exact h1)
      (by dsimp only; rw [mapIdxPlayers_length]; exact h22)


theorem queryImplementedState_players_length (strat : TableState → Player → Action)
    (s : TableSt) :
    (queryImplementedState strat s).state.players.length = s.state.players.length := by
  unfold queryImplementedState
  dsimp only
  rw [implement_length]

theorem queryImplementedState_cardsDealt (strat : TableState → Player → Action)
    (s : TableSt) :
    cardsDealt (queryImplementedState strat s).state.players
      = cardsDealt s.state.players := by
  unfold queryImplementedState
  dsimp only
  rw [cardsDealt_implement]

theorem queryImplementedState_DeckInv (strat : TableState → Player → Action)
    (s : TableSt) (hd : DeckInv s) :
    DeckInv (queryImplementedState strat s) := by
  unfold DeckInv
  rw [queryImplementedState_cardsDealt]
  exact hd

theorem queryImplementedState_idx_lt (strat : TableState → Player → Action)
    (s : TableSt) (h : 1 ≤ s.state.players.length) :
    (queryImplementedState strat s).state.player_at_hand_index
      < (queryImplementedState strat s).state.players.length := by
  unfold queryImplementedState
  dsimp only
  exact searchNextPlayer_lt _ _ (by rw [implement_length]; exact h)

theorem execQueryPlayer_inv (strat : TableState → Player → Action) (s : TableSt)
    (hn1 : 1 ≤ s.state.players.length) (hn22 : s.state.players.length ≤ 22)
    (hidx : s.state.player_at_hand_index < s.state.players.length)
    (hdi : DeckInv s) :
    ∃ s1 chain, execQueryPlayer strat s = some (s1, chain) ∧ Inv s1 := by
  by_cases hq1 : (s.state.num_nonfolded_players == 1) = true
  · refine ⟨{ s with q := Event.DETERMINE_WINNER }, [Event.QUERY_PLAYER], ?_, ?_⟩
    · unfold execQueryPlayer
      dsimp only
      rw [if_pos hq1]
    · exact ⟨hn1, hn22, hidx, Or.inr (Or.inr (Or.inr (Or.inr (Or.inr (Or.inl rfl))))),
        fun hq => by simp at hq, fun hq => by simp at hq, fun _ => hdi⟩
  · by_cases hq2 : (s.state.num_bettable_players == 1) = true
    · refine ⟨{ s with q := Event.SHOWDOWN }, [Event.QUERY_PLAYER], ?_, ?_⟩
      · unfold execQueryPlayer
        dsimp only
        rw [if_neg hq1, if_pos hq2]
      · exact ⟨hn1, hn22, hidx, Or.inr (Or.inr (Or.inr (Or.inr (Or.inl rfl)))),
          fun hq => by simp at hq, fun hq => by simp at hq, fun _ => hdi⟩
    · by_cases hq3 : ((queryImplementedState strat s).state.num_nonfolded_players == 1) = true
      · refine ⟨(execDetermineWinner (queryImplementedState strat s)).1,
          Event.QUERY_PLAYER :: (execDetermineWinner (queryImplementedState strat s)).2,
          ?_, ?_⟩
        · unfold execQueryPlayer
          dsimp only
          rw [if_neg hq1, if_neg hq2, if_pos hq3]
        · exact execDetermineWinner_inv
            (by rw [queryImplementedState_players_length]; exact hn1)
            (by rw [queryImplementedState_players_length]; exact hn22)
      · by_cases hq4 : (bettingEqual strat s
            && (queryImplementedState strat s).queried.all id) = true
        · obtain ⟨s2, he, hd2, hp2, hix2, hqor⟩ := execIncreaseRound_inv
            (by rw [queryImplementedState_players_length]; exact hn22)
            (queryImplementedState_DeckInv strat s hdi)
          refine ⟨s2, [Event.QUERY_PLAYER, Event.INCREASE_ROUND], ?_, ?_⟩
          · unfold execQueryPlayer
            dsimp only
            rw [if_neg hq1, if_neg hq2, if_neg hq3, if_pos hq4, he]
          · refine ⟨?_, ?_, ?_, ?_, ?_, ?_, fun _ => hd2⟩
            · rw [hp2, queryImplementedState_players_length]
              exact hn1
            · rw [hp2, queryImplementedState_players_length]
              exact hn22
            · rw [hix2, hp2]
              exact queryImplementedState_idx_lt strat s hn1
            · rcases hqor with hx | hx <;> rw [hx]
              · exact Or.inr (Or.inr (Or.inl rfl))
              · exact Or.inr (Or.inr (Or.inr (Or.inr (Or.inl rfl))))
            · intro hq
              rcases hqor with hx | hx <;> rw [hx] at hq <;> exact absurd hq (by decide)
            · intro hq
              rcases hqor with hx | hx <;> rw [hx] at hq <;> exact absurd hq (by decide)
        · refine ⟨{ queryImplementedState strat s with q := Event.QUERY_PLAYER },
            [Event.QUERY_PLAYER], ?_, ?_⟩
          · unfold execQueryPlayer
            dsimp only
            rw [if_neg hq1, if_neg hq2, if_neg hq3, if_neg hq4]
          · refine ⟨?_, ?_, ?_, Or.inr (Or.inr (Or.inr (Or.inl rfl))),
              fun hq => by simp at hq, fun hq => by simp at hq,
              fun _ => ?_⟩
            · show 1 ≤ (queryImplementedState strat s).state.players.length
              rw [queryImplementedState_players_length]
              exact hn1
            · show (queryImplementedState strat s).state.players.length ≤ 22
              rw [queryImplementedState_players_length]
              exact hn22
            · exact queryImplementedState_idx_lt strat s hn1
            · exact queryImplementedState_DeckInv strat s hdi


/-- C10: from any state satisfying the reachability invariant (including any
state about to start or inside a hand with at most 22 players), the next
engine step succeeds — every `sample` it performs finds a non-empty deck, so
the deck-exhaustion failure branch is unreachable — and the invariant is
preserved.  `nd` is the fresh 52-card deck that NEW_ROUND shuffles. -/
theorem claim_C10_no_deck_exhaustion (strat : TableState → Player → Action)
    (nd : List Card) (s : TableSt) (hinv : Inv s) (hnd : nd.length = 52) :
    ∃ s1 chain, step strat nd s = some (s1, chain) ∧ Inv s1 := by
  obtain ⟨hn1, hn22, hidx, hsch, hcards, hdealround, hdeckinv⟩ := hinv
  rcases hsch with h | h | h | h | h | h | h
  · -- NEW_ROUND
    refine ⟨execNewRound s nd, [Event.NEW_ROUND], ?_, ?_⟩
    · unfold step
      rw [h, if_neg (by decide)]
      rfl
    · unfold execNewRound
      dsimp only
      split_ifs with hrem
      · exact ⟨hn1, hn22, hidx,
          Or.inr (Or.inr (Or.inr (Or.inr (Or.inr (Or.inr rfl))))),
          fun hq => by simp at hq, fun hq => by simp at hq,
          fun hq => by rcases hq with hx | hx | hx | hx | hx <;> simp at hx⟩
      · refine ⟨hn1, hn22, hidx, Or.inr (Or.inl rfl),
          fun hq => by simp at hq, fun _ => rfl, fun _ => ?_⟩
        unfold DeckInv
        dsimp only
        rw [cardsDealt_eq_zero (hcards h)]
        simp only [consumed]
        omega
  · -- DEAL_PLAYER_CARD
    have hround := hdealround h
    have hdi := hdeckinv (Or.inl h)
    unfold DeckInv at hdi
    rw [hround] at hdi
    simp only [consumed] at hdi
    by_cases hc : (((s.state.players.getD s.state.player_at_hand_index default).cards.length) == 0) = true
    · have hlt : cardsDealt s.state.players < s.state.players.length :=
        cardsDealt_lt hidx hc
      obtain ⟨c1, d1, hs1, hl1⟩ := @sample_of_length s.deck (s.deck.length - 1) (by omega)
      obtain ⟨c2, d2, hs2, hl2⟩ := @sample_of_length d1 (d1.length - 1) (by omega)
      have hA : s.state.player_at_hand_index < (dealBlinds s.state).length := by
        rw [dealBlinds_length]
        exact hidx
      have hB : ((dealBlinds s.state).getD s.state.player_at_hand_index default).cards.length
          = 0 := by
        rw [dealBlinds_getD_cards]
        simpa using hc
      have hlen3 : (modifyAt (dealBlinds s.state) s.state.player_at_hand_index
          (fun p => { p with cards := [c1, c2] })).length = s.state.players.length := by
        rw [modifyAt_length, dealBlinds_length]
      refine ⟨{ s with
          deck := d2,
          state := { s.state with
            players := modifyAt (dealBlinds s.state) s.state.player_at_hand_index
              (fun p => { p with cards := [c1, c2] }),
            player_at_hand_index := searchNextPlayer
              (modifyAt (dealBlinds s.state) s.state.player_at_hand_index
                (fun p => { p with cards := [c1, c2] }))
              s.state.player_at_hand_index },
          q := Event.DEAL_PLAYER_CARD }, [Event.DEAL_PLAYER_CARD], ?_, ?_⟩
      · unfold step
        rw [h, if_neg (by decide)]
        simp only [execute]
        unfold execDealPlayerCard
        dsimp only
        rw [if_pos hc, hs1]
        dsimp only
        rw [hs2]
        dsimp only
        simp only [Option.map_some']
      · refine ⟨?_, ?_, ?_, Or.inr (Or.inl rfl), fun hq => by simp at hq,
          fun _ => hround, fun _ => ?_⟩
        · show 1 ≤ (modifyAt (dealBlinds s.state) s.state.player_at_hand_index
            (fun p => { p with cards := [c1, c2] })).length
          rw [hlen3]
          exact hn1
        · show (modifyAt (dealBlinds s.state) s.state.player_at_hand_index
            (fun p => { p with cards := [c1, c2] })).length ≤ 22
          rw [hlen3]
          exact hn22
        · exact searchNextPlayer_lt _ _ (by rw [hlen3]; omega)
        · unfold DeckInv
          dsimp only
          rw [cardsDealt_modifyAt_set hA hB c1 c2, cardsDealt_dealBlinds, hround]
          simp only [consumed]
          omega
    · refine ⟨{ s with q := Event.START_BETTING_ROUND }, [Event.DEAL_PLAYER_CARD], ?_, ?_⟩
      · unfold step
        rw [h, if_neg (by decide)]
        simp only [execute]
        unfold execDealPlayerCard
        dsimp only
        rw [if_neg hc]
        simp only [Option.map_some']
      · exact ⟨hn1, hn22, hidx, Or.inr (Or.inr (Or.inl rfl)),
          fun hq => by simp at hq, fun hq => by simp at hq,
          fun _ => hdeckinv (Or.inl h)⟩
  · -- START_BETTING_ROUND
    refine ⟨execStartBettingRound s, [Event.START_BETTING_ROUND], ?_, ?_⟩
    · unfold step
      rw [h, if_neg (by decide)]
      rfl
    · unfold execStartBettingRound
      dsimp only
      exact ⟨hn1, hn22, searchNextPlayer_lt _ _ hn1,
        Or.inr (Or.inr (Or.inr (Or.inl rfl))),
        fun hq => by simp at hq, fun hq => by simp at hq,
        fun _ => hdeckinv (Or.inr (Or.inl h))⟩
  · -- QUERY_PLAYER
    obtain ⟨s1, chain, heq, hi⟩ := execQueryPlayer_inv strat s hn1 hn22 hidx
      (hdeckinv (Or.inr (Or.inr (Or.inl h))))
    refine ⟨s1, chain, ?_, hi⟩
    unfold step
    rw [h, if_neg (by decide)]
    simp only [execute]
    exact heq
  · -- SHOWDOWN
    have hdi := hdeckinv (Or.inr (Or.inr (Or.inr (Or.inl h))))
    obtain ⟨sA, cA, hA, hdA, hpA, _⟩ := fillOnce_inv hn22 hdi
    obtain ⟨sB, cB, hB, hdB, hpB, _⟩ := fillOnce_inv (by rw [hpA]; exact hn22) hdA
    obtain ⟨sC, cC, hC, hdC, hpC, _⟩ := fillOnce_inv (by rw [hpB, hpA]; exact hn22) hdB
    refine ⟨(execDetermineWinner sC).1,
      Event.SHOWDOWN :: (cA ++ cB ++ cC ++ (execDetermineWinner sC).2), ?_, ?_⟩
    · unfold step
      rw [h, if_neg (by decide)]
      simp only [execute]
      unfold execShowdown
      rw [hA]
      dsimp only
      rw [hB]
      dsimp only
      rw [hC]
    · exact execDetermineWinner_inv
        (by rw [hpC, hpB, hpA]; exact hn1)
        (by rw [hpC, hpB, hpA]; exact hn22)
  · -- DETERMINE_WINNER
    refine ⟨(execDetermineWinner s).1, (execDetermineWinner s).2, ?_,
      execDetermineWinner_inv hn1 hn22⟩
    unfold step
    rw [h, if_neg (by decide)]
    rfl
  · -- DONE
    refine ⟨s, [], ?_, hn1, hn22, hidx, ?_, hcards, hdealround, hdeckinv⟩
    · unfold step
      rw [h, if_pos rfl]
    · rw [h]
      exact Or.inr (Or.inr (Or.inr (Or.inr (Or.inr (Or.inr rfl)))))

theorem Inv_simpleTable : Inv simpleTable := by
  refine ⟨by decide, by decide, by decide, Or.inl rfl, fun _ => by decide,
    fun hq => by simp [simpleTable] at hq, fun hq => ?_⟩
  rcases hq with hx | hx | hx | hx | hx <;> simp [simpleTable] at hx

theorem claim_C10_witness :
    Inv simpleTable ∧ fullDeck.length = 52
    ∧ ∃ s1 chain, step strat0 fullDeck simpleTable = some (s1, chain) ∧ Inv s1 :=
  ⟨Inv_simpleTable, by decide,
    claim_C10_no_deck_exhaustion strat0 fullDeck simpleTable Inv_simpleTable (by decide)⟩

end Poker
